import Mathlib

/-!
# Verification of the s3uploader client-side multipart upload orchestrator

Shallow embedding of `src/uploader-presigned.js` (classes
`S3MultipartUploaderPresigned`, `S3MultipartUploaderDirectPresigned`, and
`S3MultipartUploader`).  JavaScript numbers are modelled with exact `Nat`/`Int`
arithmetic (the sizes involved are integers far below 2^53, where double
arithmetic on the operations used here is exact); optional / possibly-missing
JSON fields are modelled with `Option`; a thrown exception is modelled as an
explicit error value threaded through the control flow.
-/

namespace S3Uploader

/-- A completed-part record, the JS object `{PartNumber, ETag}` built at
`uploader-presigned.js:144-147`. -/
structure PartRec where
  PartNumber : Nat
  ETag : String
deriving DecidableEq

/-! ## ByteRangePlanner: part count and byte ranges

`uploader-presigned.js:62` computes `totalParts = Math.ceil(fileSize / chunkSize)`;
`uploader-presigned.js:269-271` computes, for part `p`,
`start = (p-1)*chunkSize`, `end = min(start + chunkSize, file.size)`. -/

/-- `Math.ceil(fileSize / chunkSize)` (`uploader-presigned.js:62`), as exact
ceiling division on naturals. -/
def totalPartsFor (fileSize chunkSize : Nat) : Nat :=
  (fileSize + chunkSize - 1) / chunkSize

/-- `const start = (partNumber - 1) * this.chunkSize` (`uploader-presigned.js:269`). -/
def partStart (chunkSize p : Nat) : Nat := (p - 1) * chunkSize

/-- `const end = Math.min(start + this.chunkSize, file.size)` (`uploader-presigned.js:270`). -/
def partEnd (fileSize chunkSize p : Nat) : Nat :=
  min (partStart chunkSize p + chunkSize) fileSize

/-! ## PartTransferUnit: the retry loop of `uploadPart`

`uploader-presigned.js:119-160` (the same skeleton appears verbatim at
`uploader-presigned.js:428-466` and, with a per-attempt token fetch inside the
`try`, at `uploader-presigned.js:773-826`):

```
let retries = 0;
while (retries < this.maxRetries) {
  try { ...attempt...; return {PartNumber, ETag}; }
  catch (error) {
    retries++;
    if (retries >= this.maxRetries) { throw error; }
    await new Promise(resolve => setTimeout(resolve, this.retryDelay * retries));
  }
}
```

An attempt's outcome is sampled from `outcomes : Nat → Option String`
(`outcomes k` is the result of the attempt made while `retries = k`:
`some etag` on success, `none` when the attempt throws).  The loop is encoded
structurally on `remaining = maxRetries - retries`, keeping the invariant
`maxRetries = retries + remaining`. -/

/-- What one full run of `uploadPart` does: fall out of the loop returning
`undefined` (`fellThrough`, only possible when `maxRetries = 0`), throw the
last attempt's error (`thrown`), or return a part record (`success`). -/
inductive PartOutcome where
  | success (etag : String)
  | thrown
  | fellThrough
deriving DecidableEq

/-- Observable log of one `uploadPart` run: how many transfer attempts were
made, the backoff delays awaited (in order), and the outcome. -/
structure RunLog where
  attempts : Nat
  delays : List Nat
  outcome : PartOutcome
deriving DecidableEq

/-- The `while (retries < maxRetries)` loop of `uploadPart`
(`uploader-presigned.js:122-159`), with `remaining = maxRetries - retries`. -/
def uploadPartGo (outcomes : Nat → Option String) (retryDelay : Nat) :
    (remaining retries : Nat) → RunLog
  | 0, _ => ⟨0, [], .fellThrough⟩
  | 1, r =>
    -- last permitted attempt: on failure `retries + 1 >= maxRetries`, so throw
    match outcomes r with
    | some etag => ⟨1, [], .success etag⟩
    | none => ⟨1, [], .thrown⟩
  | rem + 2, r =>
    match outcomes r with
    | some etag => ⟨1, [], .success etag⟩
    | none =>
      let rest := uploadPartGo outcomes retryDelay (rem + 1) (r + 1)
      ⟨rest.attempts + 1, retryDelay * (r + 1) :: rest.delays, rest.outcome⟩

/-- `uploadPart(partNumber, chunk, presignedUrl)` (`uploader-presigned.js:119-160`):
the retry loop entered with `retries = 0`. -/
def uploadPart (outcomes : Nat → Option String) (retryDelay maxRetries : Nat) : RunLog :=
  uploadPartGo outcomes retryDelay maxRetries 0

/-! ## getPresignedUrls: response validation and session-state assignment

`uploader-presigned.js:60-114`.  The collaborator's JSON is modelled loosely:
a field that may be absent (or, for `presignedUrls`, absent / not an array) is
an `Option`.  JavaScript truthiness of a string field (`!data.uploadId`) is
`jsTruthyStr`: `undefined` and the empty string are falsy. -/

/-- One element of the `presignedUrls` array.  The code never validates the
element's fields, so `url` may be missing. -/
structure UrlToken where
  partNumber : Int
  url : Option String
deriving DecidableEq

/-- The parsed JSON body returned by the initiate endpoint
(`uploader-presigned.js:48-58`).  `presignedUrls = none` models a missing or
non-array field (both rejected by the same test at line 93). -/
structure InitData where
  uploadId : Option String
  presignedUrls : Option (List UrlToken)
  bucket : Option String
  key : Option String
deriving DecidableEq

/-- The uploader's session fields (`uploader-presigned.js:27-31,104-107`). -/
structure SessionState where
  uploadId : Option String
  presignedUrls : List UrlToken
  bucket : Option String
  key : Option String
deriving DecidableEq

/-- Constructor state: `uploadId = null`, `presignedUrls = []`
(`uploader-presigned.js:27-29`). -/
def initialSession : SessionState := ⟨none, [], none, none⟩

/-- JavaScript truthiness of a string-valued field: `undefined`/`null` and
`""` are falsy. -/
def jsTruthyStr : Option String → Bool
  | none => false
  | some s => !(s == "")

/-- `data.presignedUrls.sort((a, b) => a.partNumber - b.partNumber)`
(`uploader-presigned.js:102`): sorting ascending by `partNumber`, modelled by
insertion sort (any comparison sort agrees observably for this total
comparator). -/
def sortTokens (ts : List UrlToken) : List UrlToken :=
  ts.insertionSort (fun a b => a.partNumber ≤ b.partNumber)

/-- The validation + assignment tail of `getPresignedUrls`
(`uploader-presigned.js:93-109`), assuming the HTTP fetch returned ok with a
JSON body `data`.  On a thrown validation error the session fields are
untouched (the `this.uploadId = ...` assignments at lines 104-107 are only
reached after every check passes). -/
def getPresignedUrlsRun (st : SessionState) (totalParts : Nat) (data : InitData) :
    SessionState × Option String :=
  if jsTruthyStr data.uploadId = false then
    (st, some "Invalid response: missing uploadId or presignedUrls array")
  else
    match data.presignedUrls with
    | none => (st, some "Invalid response: missing uploadId or presignedUrls array")
    | some urls =>
      if urls.length ≠ totalParts then
        (st, some "Invalid response: wrong number of presigned URLs")
      else
        ({ uploadId := data.uploadId, presignedUrls := sortTokens urls,
           bucket := data.bucket, key := data.key }, none)

/-! ## The completed-parts array under arbitrary completion order

`uploader-presigned.js:260` allocates `partsArray = new Array(totalParts)`;
each successful part transfer executes `partsArray[partNumber - 1] = part`
(`uploader-presigned.js:275`) where `part = {PartNumber: partNumber, ETag: ...}`;
after all batches, `completedParts = partsArray.filter(part => part !== undefined)`
(`uploader-presigned.js:314`).  The order in which transfers complete is the
order of the slot writes, modelled as an arbitrary list `order` of part
numbers folded over the array. -/

/-- `partsArray[p - 1] = {PartNumber: p, ETag: etag}` (`uploader-presigned.js:275`). -/
def recordCompletion (arr : List (Option PartRec)) (p : Nat) (etag : String) :
    List (Option PartRec) :=
  arr.set (p - 1) (some ⟨p, etag⟩)

/-- The state of `partsArray` after the transfers listed in `order` (given by
part number, in completion order) have succeeded, part `p` returning
`etags p`. -/
def runCompletions (totalParts : Nat) (etags : Nat → String) (order : List Nat) :
    List (Option PartRec) :=
  order.foldl (fun arr p => recordCompletion arr p (etags p)) (List.replicate totalParts none)

/-- `partsArray.filter(part => part !== undefined)` (`uploader-presigned.js:314`). -/
def completedParts (arr : List (Option PartRec)) : List PartRec :=
  arr.filterMap id

/-! ## ConcurrencyScheduler: the batching loop

`uploader-presigned.js:296-311`:

```
const maxConcurrent = 5;
for (let i = 0; i < totalParts; i += maxConcurrent) {
  const batch = [];
  for (let j = 0; j < maxConcurrent && i + j < totalParts; j++) {
    batch.push(uploadSinglePart(i + j + 1, ...));
  }
  await Promise.all(batch);
}
```

Each batch dispatches its transfers and then awaits them all before the next
batch is dispatched. -/

/-- The hard-coded concurrency limit (`uploader-presigned.js:261`). -/
def maxConcurrent : Nat := 5

/-- The inner batch-building loop: the part numbers `i+1 .. i+min(5, totalParts-i)`
dispatched by the batch starting at index `i`; then advance `i` by
`maxConcurrent`.  Structural on a fuel that the wrapper sets to `totalParts`
(each step consumes at least one part, so this fuel always suffices). -/
def batchesGo (totalParts : Nat) : (fuel i : Nat) → List (List Nat)
  | 0, _ => []
  | fuel + 1, i =>
    if i < totalParts then
      List.range' (i + 1) (min maxConcurrent (totalParts - i)) ::
        batchesGo totalParts fuel (i + maxConcurrent)
    else []

/-- The sequence of dispatch batches of the `for (let i = 0; ...)` loop
(`uploader-presigned.js:297-311`). -/
def batches (totalParts : Nat) : List (List Nat) :=
  batchesGo totalParts totalParts 0

/-- A transfer-entry or transfer-exit event, as the spec's test double would
observe them. -/
inductive SchedEvent where
  | dispatch (p : Nat)
  | settle (p : Nat)
deriving DecidableEq

/-- The event trace of one scheduler run: for each batch, all its transfers
are dispatched, then all of them settle (in an arbitrary order given by
`settleOrders`) before the next batch starts — the semantics of building
`batch` and then `await Promise.all(batch)`. -/
def schedTrace (bs settleOrders : List (List Nat)) : List SchedEvent :=
  (List.zipWith
    (fun b s => b.map SchedEvent.dispatch ++ s.map SchedEvent.settle) bs settleOrders).flatten

/-- Number of transfers dispatched in a trace fragment. -/
def countDispatch (tr : List SchedEvent) : Nat :=
  tr.countP (fun e => match e with | .dispatch _ => true | _ => false)

/-- Number of transfers settled in a trace fragment. -/
def countSettle (tr : List SchedEvent) : Nat :=
  tr.countP (fun e => match e with | .settle _ => true | _ => false)

/-! ## Constructor defaults

`uploader-presigned.js:22-24` (and identically at lines 378-380 and 681-683):

```
this.chunkSize = options.chunkSize || 5 * 1024 * 1024;
this.maxRetries = options.maxRetries || 3;
this.retryDelay = options.retryDelay || 1000;
```

A numeric option is modelled as `Option Int` (`none` = field absent); the JS
`||` takes the default exactly when the value is falsy, i.e. absent or `0`
(`NaN` is not representable by an integer option and is out of scope). -/

/-- `options.x || dflt` for a numeric option field. -/
def jsOrNum (v : Option Int) (dflt : Int) : Int :=
  match v with
  | none => dflt
  | some n => if n = 0 then dflt else n

/-- The numeric constructor options of the uploader classes. -/
structure UploaderOptions where
  chunkSize : Option Int
  maxRetries : Option Int
  retryDelay : Option Int
deriving DecidableEq

/-- The numeric configuration fields after the constructor ran
(`uploader-presigned.js:22-24`, `378-380`, `681-683`). -/
structure UploaderNumConfig where
  chunkSize : Int
  maxRetries : Int
  retryDelay : Int
deriving DecidableEq

/-- The constructor's defaulting of the three numeric options. -/
def mkUploaderNumConfig (o : UploaderOptions) : UploaderNumConfig :=
  ⟨jsOrNum o.chunkSize (5 * 1024 * 1024), jsOrNum o.maxRetries 3, jsOrNum o.retryDelay 1000⟩

/-! ## The `upload()` control flow

`uploader-presigned.js:231-359`, as a deterministic trace semantics.  The
environment fixes the outcome of every external interaction: the initiate
response body, each part's per-attempt outcomes, whether the complete call
succeeds, and whether the abort fetch succeeds.  Within a batch the model runs
the transfers in dispatch order (the final `partsArray` does not depend on the
interleaving; the concurrency ceiling itself is treated by `schedTrace`). -/

/-- Runtime numeric configuration used by `upload()` (values after the
constructor's defaulting, hence positive naturals). -/
structure Config where
  chunkSize : Nat
  maxRetries : Nat
  retryDelay : Nat
deriving DecidableEq

/-- Outcomes of all external interactions of one `upload()` run.
`partOutcomes p k` is the result of attempt `k` of part `p`'s transfer. -/
structure UploadEnv where
  initData : InitData
  partOutcomes : Nat → Nat → Option String
  completeOk : Bool
  abortFetchOk : Bool

/-- Externally observable events of an `upload()` run. -/
inductive UEvent where
  | progress (phase : String)
  | fetchInit
  | dispatch (p : Nat)
  | delayEv (ms : Nat)
  | fetchAbort
  | fetchComplete (parts : List PartRec)
deriving DecidableEq

/-- `abortUpload(uploadId, bucket, key)` (`uploader-presigned.js:207-226`):
one fetch to the abort endpoint inside `try { ... } catch { /* log only */ }`.
The returned error slot is `none` on both branches — the catch swallows the
fetch's failure, so the method never throws regardless of `abortFetchOk`. -/
def abortUploadRun (abortFetchOk : Bool) : List UEvent × Option String :=
  ((fun _ => [UEvent.fetchAbort]) abortFetchOk, none)

/-- The `catch` block of `upload()` (`uploader-presigned.js:342-358`): if a
session id exists, best-effort `abortUpload`; then, if a progress callback was
given, one `error` progress event; then re-throw the caught error unchanged. -/
def uploadCatchRun (abortFetchOk : Bool) (uploadId : Option String) (hasCB : Bool)
    (e : String) : List UEvent × String :=
  ((if uploadId.isSome then (abortUploadRun abortFetchOk).1 else []) ++
    (if hasCB then [UEvent.progress "error"] else []), e)

/-- `uploadSinglePart(partNumber, presignedUrl)` (`uploader-presigned.js:264-294`):
check `this.aborted` once at entry (line 265); slice the chunk; run the retry
loop; on a returned part, write `partsArray[partNumber-1]` and fire an
`uploading` progress event.  The source contains no second read of
`this.aborted` after the transfer resolves, so the flag's value at completion
time (`abortedAtCompletion`) does not influence the result. -/
def uploadSinglePartRun (outcomes : Nat → Option String) (retryDelay maxRetries : Nat)
    (hasCB abortedAtEntry abortedAtCompletion : Bool) (p : Nat)
    (arr : List (Option PartRec)) :
    List UEvent × List (Option PartRec) × Option String :=
  if abortedAtEntry then ([], arr, some "Upload aborted")
  else
    let log := uploadPart outcomes retryDelay maxRetries
    let evs := UEvent.dispatch p :: log.delays.map UEvent.delayEv
    match (fun _ => log.outcome) abortedAtCompletion with
    | .success etag =>
      (evs ++ (if hasCB then [UEvent.progress "uploading"] else []),
        arr.set (p - 1) (some ⟨p, etag⟩), none)
    | .thrown => (evs, arr, some "part failed")
    | .fellThrough =>
      (evs ++ (if hasCB then [UEvent.progress "uploading"] else []),
        arr.set (p - 1) none, none)

/-- One batch (`uploader-presigned.js:302-310`): every transfer of the batch
runs (they were all dispatched before the first rejection can propagate);
`Promise.all` rejects with the first failure, which `err <|> err'` keeps. -/
def runBatch (env : UploadEnv) (cfg : Config) (hasCB : Bool) (ps : List Nat)
    (arr : List (Option PartRec)) :
    List UEvent × List (Option PartRec) × Option String :=
  ps.foldl
    (fun acc p =>
      let res := uploadSinglePartRun (env.partOutcomes p) cfg.retryDelay cfg.maxRetries
        hasCB false false p acc.2.1
      (acc.1 ++ res.1, res.2.1, acc.2.2 <|> res.2.2))
    ([], arr, none)

/-- The outer batch loop (`uploader-presigned.js:297-311`): before each batch
`this.aborted` is read (line 298; `abortedAtBatch k` is its value when batch
`k` is reached); a rejected `Promise.all` stops the loop with that error. -/
def runBatches (env : UploadEnv) (cfg : Config) (hasCB : Bool)
    (abortedAtBatch : Nat → Bool) :
    Nat → List (List Nat) → List (Option PartRec) →
    List UEvent × List (Option PartRec) × Option String
  | _, [], arr => ([], arr, none)
  | k, b :: rest, arr =>
    if abortedAtBatch k then ([], arr, some "Upload aborted")
    else
      let res := runBatch env cfg hasCB b arr
      match res.2.2 with
      | some e => (res.1, res.2.1, some e)
      | none =>
        let res2 := runBatches env cfg hasCB abortedAtBatch (k + 1) rest res.2.1
        (res.1 ++ res2.1, res2.2.1, res2.2.2)

/-- `upload(file, onProgress)` (`uploader-presigned.js:231-359`) for a run in
which `abort()` is never called (`abortedAtBatch` identically false inside the
batch loop).  Returns the full event trace and the terminal outcome. -/
def uploadRun (cfg : Config) (fileSize : Nat) (hasCB : Bool) (env : UploadEnv) :
    List UEvent × Except String String :=
  let evInit := if hasCB then [UEvent.progress "initiating"] else []
  let totalParts := totalPartsFor fileSize cfg.chunkSize
  let init := getPresignedUrlsRun initialSession totalParts env.initData
  match init.2 with
  | some e =>
    -- the throw happened before lines 104-107 assigned anything, so the catch
    -- block sees `this.uploadId` still null: no abort fetch is attempted
    let c := uploadCatchRun env.abortFetchOk init.1.uploadId hasCB e
    (evInit ++ [UEvent.fetchInit] ++ c.1, .error c.2)
  | none =>
    let st := init.1
    let totalN := st.presignedUrls.length
    let evUp := if hasCB then [UEvent.progress "uploading"] else []
    let res := runBatches env cfg hasCB (fun _ => false) 0 (batches totalN)
      (List.replicate totalN none)
    match res.2.2 with
    | some e =>
      let c := uploadCatchRun env.abortFetchOk st.uploadId hasCB e
      (evInit ++ [UEvent.fetchInit] ++ evUp ++ res.1 ++ c.1, .error c.2)
    | none =>
      let completed := completedParts res.2.1
      let evC := if hasCB then [UEvent.progress "completing"] else []
      if env.completeOk then
        (evInit ++ [UEvent.fetchInit] ++ evUp ++ res.1 ++ evC ++
          [UEvent.fetchComplete completed] ++
          (if hasCB then [UEvent.progress "completed"] else []), .ok "done")
      else
        let c := uploadCatchRun env.abortFetchOk st.uploadId hasCB "complete failed"
        (evInit ++ [UEvent.fetchInit] ++ evUp ++ res.1 ++ evC ++
          [UEvent.fetchComplete completed] ++ c.1, .error c.2)

/-- `abort()` (`uploader-presigned.js:364-369`): set the flag; if a session id
exists, fire the (self-swallowing) `abortUpload`.  The error slot is the
exception `abort()` itself would raise: there is none on any path. -/
def abortRun (st : SessionState) (abortFetchOk : Bool) :
    Bool × List UEvent × Option String :=
  (true,
    (if st.uploadId.isSome then (abortUploadRun abortFetchOk).1 else []),
    none)

/-! ## The `upload()` control flow with an asynchronous `abort()`

The same embedding of `uploader-presigned.js:231-359`, but with the value of
`this.aborted` sampled at each of the code's reads: `abortedAtBatch k` at the
batch-boundary check (line 298), `entryFlag p` at part `p`'s entry check
(line 265), and `cplFlag p` standing for the flag's value when part `p`'s
transfer resolves — a read the source never performs, which is why the code
after the batch loop (lines 313-341) is reproduced verbatim with no further
check before `completeUpload`. -/

/-- `runBatch` with per-part flag observations. -/
def runBatchFlags (env : UploadEnv) (cfg : Config) (hasCB : Bool)
    (entryFlag cplFlag : Nat → Bool) (ps : List Nat)
    (arr : List (Option PartRec)) :
    List UEvent × List (Option PartRec) × Option String :=
  ps.foldl
    (fun acc p =>
      let res := uploadSinglePartRun (env.partOutcomes p) cfg.retryDelay cfg.maxRetries
        hasCB (entryFlag p) (cplFlag p) p acc.2.1
      (acc.1 ++ res.1, res.2.1, acc.2.2 <|> res.2.2))
    ([], arr, none)

/-- `runBatches` with per-part flag observations. -/
def runBatchesFlags (env : UploadEnv) (cfg : Config) (hasCB : Bool)
    (abortedAtBatch : Nat → Bool) (entryFlag cplFlag : Nat → Bool) :
    Nat → List (List Nat) → List (Option PartRec) →
    List UEvent × List (Option PartRec) × Option String
  | _, [], arr => ([], arr, none)
  | k, b :: rest, arr =>
    if abortedAtBatch k then ([], arr, some "Upload aborted")
    else
      let res := runBatchFlags env cfg hasCB entryFlag cplFlag b arr
      match res.2.2 with
      | some e => (res.1, res.2.1, some e)
      | none =>
        let res2 := runBatchesFlags env cfg hasCB abortedAtBatch entryFlag cplFlag
          (k + 1) rest res.2.1
        (res.1 ++ res2.1, res2.2.1, res2.2.2)

/-- `upload(file, onProgress)` (`uploader-presigned.js:231-359`) with the
abort flag's sampled values.  After the batch loop returns without error the
code reaches `completeUpload` (line 325) with no further read of
`this.aborted`, so this tail is identical to `uploadRun`'s. -/
def uploadRunFlags (cfg : Config) (fileSize : Nat) (hasCB : Bool) (env : UploadEnv)
    (abortedAtBatch entryFlag cplFlag : Nat → Bool) :
    List UEvent × Except String String :=
  let evInit := if hasCB then [UEvent.progress "initiating"] else []
  let totalParts := totalPartsFor fileSize cfg.chunkSize
  let init := getPresignedUrlsRun initialSession totalParts env.initData
  match init.2 with
  | some e =>
    let c := uploadCatchRun env.abortFetchOk init.1.uploadId hasCB e
    (evInit ++ [UEvent.fetchInit] ++ c.1, .error c.2)
  | none =>
    let st := init.1
    let totalN := st.presignedUrls.length
    let evUp := if hasCB then [UEvent.progress "uploading"] else []
    let res := runBatchesFlags env cfg hasCB abortedAtBatch entryFlag cplFlag
      0 (batches totalN) (List.replicate totalN none)
    match res.2.2 with
    | some e =>
      let c := uploadCatchRun env.abortFetchOk st.uploadId hasCB e
      (evInit ++ [UEvent.fetchInit] ++ evUp ++ res.1 ++ c.1, .error c.2)
    | none =>
      let completed := completedParts res.2.1
      let evC := if hasCB then [UEvent.progress "completing"] else []
      if env.completeOk then
        (evInit ++ [UEvent.fetchInit] ++ evUp ++ res.1 ++ evC ++
          [UEvent.fetchComplete completed] ++
          (if hasCB then [UEvent.progress "completed"] else []), .ok "done")
      else
        let c := uploadCatchRun env.abortFetchOk st.uploadId hasCB "complete failed"
        (evInit ++ [UEvent.fetchInit] ++ evUp ++ res.1 ++ evC ++
          [UEvent.fetchComplete completed] ++ c.1, .error c.2)

/-! ## Lemmas about the retry loop -/

/-- If every attempt the loop can make fails, the run makes exactly
`remaining` attempts (one per loop iteration), waits `retryDelay * k` after
the `k`-th failure for `k = 1 .. remaining - 1`, and ends by throwing. -/
theorem uploadPartGo_all_fail (outcomes : Nat → Option String) (rd : Nat) :
    ∀ rem r, (∀ k, r ≤ k → k < r + (rem + 1) → outcomes k = none) →
    uploadPartGo outcomes rd (rem + 1) r =
      ⟨rem + 1, (List.range' (r + 1) rem).map (fun k => rd * k), .thrown⟩ := by
  intro rem
  induction rem with
  | zero =>
    intro r h
    have h0 : outcomes r = none := h r le_rfl (by omega)
    simp [uploadPartGo, h0]
  | succ m ih =>
    intro r h
    have h0 : outcomes r = none := h r le_rfl (by omega)
    have hrest := ih (r + 1) (fun k hk1 hk2 => h k (by omega) (by omega))
    simp only [show m + 1 + 1 = m + 2 from rfl, uploadPartGo, h0, hrest,
      List.range'_succ, List.map_cons]

/-- If the attempts made while `retries = r, …, r + j - 1` fail and the
attempt at `retries = r + j` succeeds (within the loop bound), the run makes
`j + 1` attempts, waiting `retryDelay * k` for `k = r+1 .. r+j`, and returns
the part. -/
theorem uploadPartGo_first_success (outcomes : Nat → Option String) (rd : Nat) :
    ∀ j rem r e, (∀ k, r ≤ k → k < r + j → outcomes k = none) →
    outcomes (r + j) = some e → j < rem →
    uploadPartGo outcomes rd rem r =
      ⟨j + 1, (List.range' (r + 1) j).map (fun k => rd * k), .success e⟩ := by
  intro j
  induction j with
  | zero =>
    intro rem r e _ hsucc hlt
    obtain ⟨rem', rfl⟩ : ∃ rem', rem = rem' + 1 := ⟨rem - 1, by omega⟩
    have h0 : outcomes r = some e := by simpa using hsucc
    match rem' with
    | 0 => simp [uploadPartGo, h0]
    | m + 1 => simp [uploadPartGo, h0]
  | succ m ih =>
    intro rem r e hfail hsucc hlt
    obtain ⟨rem', rfl⟩ : ∃ rem', rem = rem' + 2 := ⟨rem - 2, by omega⟩
    have h0 : outcomes r = none := hfail r le_rfl (by omega)
    have hrest := ih (rem' + 1) (r + 1) e
      (fun k hk1 hk2 => hfail k (by omega) (by omega))
      (by simpa [Nat.add_assoc, Nat.add_comm, Nat.add_left_comm] using hsucc)
      (by omega)
    simp only [uploadPartGo, h0, hrest, List.range'_succ, List.map_cons]

/-! ## Claim theorems -/

/-- C3, counterexample: with the default `maxRetries = 3` and a part whose
transfer always fails, `uploadPart` makes exactly 3 attempts in total — not
the `maxRetries + 1 = 4` total attempts the claim states. -/
theorem claim_C3_counterexample :
    (uploadPart (fun _ => none) 1000 3).attempts = 3 ∧
    (uploadPart (fun _ => none) 1000 3).attempts ≠ 3 + 1 := by
  decide

/-- C3 (amended): a single part transfer is attempted at most `maxRetries`
times in TOTAL (i.e. `maxRetries - 1` retries after the first failure; 3
total attempts with the default `maxRetries = 3`); only after all
`maxRetries` attempts have failed does `uploadPart` propagate the last error
(`thrown`), and a part that fails that many times causes `upload()` to reject
(shown on a concrete one-part run). -/
theorem claim_C3_retry_count (outcomes : Nat → Option String) (rd mr : Nat)
    (hmr : 1 ≤ mr) (hfail : ∀ k, k < mr → outcomes k = none) :
    (uploadPart outcomes rd mr).attempts = mr ∧
    (uploadPart outcomes rd mr).outcome = .thrown ∧
    (uploadRun ⟨5, 3, 1000⟩ 5 true
      ⟨⟨some "u", some [⟨1, some "url1"⟩], some "b", some "k"⟩,
        fun _ _ => none, true, true⟩).2 = .error "part failed" := by
  obtain ⟨m, rfl⟩ : ∃ m, mr = m + 1 := ⟨mr - 1, by omega⟩
  have h := uploadPartGo_all_fail outcomes rd m 0 (fun k _ hk => hfail k (by omega))
  refine ⟨?_, ?_, rfl⟩ <;> simp [uploadPart, h]

/-- C3 witness: the amended retry-count law evaluated at `maxRetries = 3`
with an always-failing transfer. -/
theorem claim_C3_retry_count_witness :
    (uploadPart (fun _ => none) 1000 3).attempts = 3 ∧
    (uploadPart (fun _ => none) 1000 3).outcome = .thrown ∧
    (uploadRun ⟨5, 3, 1000⟩ 5 true
      ⟨⟨some "u", some [⟨1, some "url1"⟩], some "b", some "k"⟩,
        fun _ _ => none, true, true⟩).2 = .error "part failed" :=
  claim_C3_retry_count (fun _ => none) 1000 3 (by decide) (fun _ _ => rfl)

/-- C4, counterexample: with base delay 1000 and a part failing twice before
succeeding, the delays actually awaited are `[1000, 2000]` — attempt 2 is
preceded by `1 × base` and attempt 3 by `2 × base`, not the `2 × base` /
`3 × base` the claim states. -/
theorem claim_C4_counterexample :
    (uploadPart (fun k => if k < 2 then none else some "e") 1000 3).delays = [1000, 2000] ∧
    (uploadPart (fun k => if k < 2 then none else some "e") 1000 3).delays ≠ [2000, 3000] := by
  decide

/-- C4 (amended): in a run whose first `j` attempts fail and whose attempt
`j + 1` succeeds, the delays awaited are `retryDelay * 1, …, retryDelay * j`
in order — i.e. overall attempt number `n ≥ 2` is preceded by a wait of
`retryDelay * (n - 1)` (linear backoff), not `retryDelay * n`. -/
theorem claim_C4_backoff (outcomes : Nat → Option String) (rd mr j : Nat) (e : String)
    (hfail : ∀ k, k < j → outcomes k = none) (hj : j < mr)
    (hsucc : outcomes j = some e) :
    uploadPart outcomes rd mr =
      ⟨j + 1, (List.range' 1 j).map (fun k => rd * k), .success e⟩ := by
  simpa [uploadPart] using
    uploadPartGo_first_success outcomes rd j mr 0 e
      (fun k _ hk => hfail k (by omega)) (by simpa using hsucc) hj

/-- C4 witness: the backoff law evaluated at a run that fails twice and then
succeeds with base delay 1000: delays `[1000 * 1, 1000 * 2]`. -/
theorem claim_C4_backoff_witness :
    uploadPart (fun k => if k < 2 then none else some "e") 1000 3 =
      ⟨2 + 1, (List.range' 1 2).map (fun k => 1000 * k), .success "e"⟩ :=
  claim_C4_backoff (fun k => if k < 2 then none else some "e") 1000 3 2 "e"
    (fun k hk => by simp [hk]) (by decide) (by decide)

/-- Slot `i` of the parts array after a sequence of completion writes: it
holds part `i + 1`'s record exactly when part `i + 1` completed (and the slot
exists); otherwise the array is untouched at `i`.  Later duplicate writes for
the same part number overwrite with the same slot shape. -/
theorem runCompletions_getElem? (etags : Nat → String) :
    ∀ (order : List Nat) (arr : List (Option PartRec)) (i : Nat),
    (∀ p ∈ order, 1 ≤ p) →
    (order.foldl (fun a p => recordCompletion a p (etags p)) arr)[i]? =
      if i + 1 ∈ order ∧ i < arr.length then some (some ⟨i + 1, etags (i + 1)⟩)
      else arr[i]? := by
  intro order
  induction order with
  | nil => intro arr i _; simp
  | cons p rest ih =>
    intro arr i hpos
    have hp1 : 1 ≤ p := hpos p (List.mem_cons_self _ _)
    have hrest := ih (recordCompletion arr p (etags p)) i
      (fun q hq => hpos q (List.mem_cons_of_mem _ hq))
    rw [List.foldl_cons, hrest, recordCompletion, List.length_set]
    by_cases hmem : i + 1 ∈ rest ∧ i < arr.length
    · simp [hmem.1, hmem.2]
    · rw [if_neg hmem]
      by_cases hlen : i < arr.length
      · have hnr : i + 1 ∉ rest := fun hr => hmem ⟨hr, hlen⟩
        by_cases hpi : p = i + 1
        · have hidx : p - 1 = i := by omega
          rw [hidx, List.getElem?_set_eq_of_lt _ hlen]
          simp [hpi, hlen]
        · have hne : p - 1 ≠ i := fun hi => hpi (by omega)
          rw [List.getElem?_set_ne hne]
          have : ¬(i + 1 ∈ p :: rest ∧ i < arr.length) := by
            simp only [List.mem_cons, not_and]
            rintro (h | h) <;> [exact absurd h.symm hpi; exact absurd h hnr]
          rw [if_neg this]
      · have h1 : (arr.set (p - 1) (some ⟨p, etags p⟩))[i]? = none :=
          List.getElem?_eq_none (by rw [List.length_set]; omega)
        have h2 : arr[i]? = none := List.getElem?_eq_none (by omega)
        rw [h1, h2, if_neg (fun h => hlen h.2)]

/-- If every part `1 .. n` completes exactly once (in any order), the final
parts array holds part `i + 1`'s record in slot `i` for every `i < n`. -/
theorem runCompletions_eq (n : Nat) (etags : Nat → String) (order : List Nat)
    (hperm : order.Perm ((List.range n).map (· + 1))) :
    runCompletions n etags order =
      (List.range n).map (fun i => some (⟨i + 1, etags (i + 1)⟩ : PartRec)) := by
  have hpos : ∀ p ∈ order, 1 ≤ p := by
    intro p hp
    have hp' := hperm.mem_iff.mp hp
    simp only [List.mem_map, List.mem_range] at hp'
    obtain ⟨a, _, rfl⟩ := hp'
    omega
  have hmem : ∀ i : Nat, (i + 1 ∈ order) ↔ i < n := by
    intro i
    rw [hperm.mem_iff]
    simp [List.mem_map, List.mem_range]
  apply List.ext_getElem?
  intro i
  rw [runCompletions, runCompletions_getElem? etags order _ i hpos]
  rcases lt_or_ge i n with hi | hi
  · rw [if_pos ⟨(hmem i).mpr hi, by simpa using hi⟩]
    simp [List.getElem?_map, hi]
  · rw [if_neg (fun h => by have := (hmem i).mp h.1; omega)]
    have h1 : (List.replicate n (none : Option PartRec))[i]? = none :=
      List.getElem?_eq_none (by simpa using hi)
    have h2 : ((List.range n).map
        (fun i => some (⟨i + 1, etags (i + 1)⟩ : PartRec)))[i]? = none :=
      List.getElem?_eq_none (by simpa using hi)
    rw [h1, h2]

/-- C1: if every part transfer eventually succeeds — i.e. the completion
order is some permutation of `1 .. totalParts` — the `completedParts` list
passed to the complete-upload call is exactly
`[part 1, part 2, …, part totalParts]`: its part numbers are `1 .. totalParts`
in strictly ascending order with exactly one entry per part number,
regardless of the completion order. -/
theorem claim_C1_sorted_finalization (n : Nat) (etags : Nat → String)
    (order : List Nat) (hperm : order.Perm ((List.range n).map (· + 1))) :
    completedParts (runCompletions n etags order) =
      (List.range n).map (fun i => ⟨i + 1, etags (i + 1)⟩) ∧
    (completedParts (runCompletions n etags order)).map PartRec.PartNumber =
      (List.range n).map (· + 1) ∧
    List.Pairwise (· < ·)
      ((completedParts (runCompletions n etags order)).map PartRec.PartNumber) := by
  have h1 : completedParts (runCompletions n etags order) =
      (List.range n).map (fun i => ⟨i + 1, etags (i + 1)⟩) := by
    rw [completedParts, runCompletions_eq n etags order hperm]
    induction (List.range n) with
    | nil => rfl
    | cons a l ihl => simp [ihl]
  have h2 : (completedParts (runCompletions n etags order)).map PartRec.PartNumber =
      (List.range n).map (· + 1) := by
    rw [h1, List.map_map]
    rfl
  refine ⟨h1, h2, ?_⟩
  rw [h2]
  exact List.Pairwise.map _ (fun a b h => by omega) (List.pairwise_lt_range n)

/-- C1 witness: three parts completing in the order 2, 3, 1 still produce the
ascending completed-parts list. -/
theorem claim_C1_sorted_finalization_witness :
    [2, 3, 1].Perm ((List.range 3).map (· + 1)) ∧
    completedParts (runCompletions 3 (fun _ => "e") [2, 3, 1]) =
      (List.range 3).map (fun i => ⟨i + 1, (fun _ => "e") (i + 1)⟩) :=
  ⟨by decide, (claim_C1_sorted_finalization 3 (fun _ => "e") [2, 3, 1] (by decide)).1⟩

/-- Counting dispatches over an append. -/
theorem countDispatch_append (t₁ t₂ : List SchedEvent) :
    countDispatch (t₁ ++ t₂) = countDispatch t₁ + countDispatch t₂ :=
  List.countP_append _ _ _

/-- Counting settles over an append. -/
theorem countSettle_append (t₁ t₂ : List SchedEvent) :
    countSettle (t₁ ++ t₂) = countSettle t₁ + countSettle t₂ :=
  List.countP_append _ _ _

/-- A dispatch-only segment contributes its length to the dispatch count and
nothing to the settle count. -/
theorem count_dispatch_map (l : List Nat) :
    countDispatch (l.map SchedEvent.dispatch) = l.length ∧
    countSettle (l.map SchedEvent.dispatch) = 0 := by
  induction l with
  | nil => exact ⟨rfl, rfl⟩
  | cons a l ih =>
    simp [countDispatch, countSettle, List.countP_cons] at *

/-- A settle-only segment contributes its length to the settle count and
nothing to the dispatch count. -/
theorem count_settle_map (l : List Nat) :
    countDispatch (l.map SchedEvent.settle) = 0 ∧
    countSettle (l.map SchedEvent.settle) = l.length := by
  induction l with
  | nil => exact ⟨rfl, rfl⟩
  | cons a l ih =>
    simp [countDispatch, countSettle, List.countP_cons] at *

/-- Every batch built by the scheduling loop has at most `maxConcurrent`
parts. -/
theorem batchesGo_length_le (totalParts : Nat) :
    ∀ fuel i, ∀ b ∈ batchesGo totalParts fuel i, b.length ≤ maxConcurrent := by
  intro fuel
  induction fuel with
  | zero => intro i b hb; simp [batchesGo] at hb
  | succ f ih =>
    intro i b hb
    rw [batchesGo] at hb
    by_cases hi : i < totalParts
    · rw [if_pos hi] at hb
      rcases List.mem_cons.mp hb with rfl | hb
      · simp [List.length_range']
      · exact ih _ b hb
    · rw [if_neg hi] at hb
      simp at hb

/-- Core in-flight bound: in the trace of a batch-then-await schedule whose
batches all have at most `C` parts and whose settle phases settle exactly the
dispatched batch, every prefix has at most `C` more dispatches than
settles. -/
theorem schedTrace_inflight_bound (C : Nat) :
    ∀ (ss bs : List (List Nat)),
    List.Forall₂ (fun s b => s.length = b.length) ss bs →
    (∀ b ∈ bs, b.length ≤ C) →
    ∀ t₁ t₂, schedTrace bs ss = t₁ ++ t₂ →
    countDispatch t₁ ≤ countSettle t₁ + C := by
  intro ss bs hfa
  induction hfa with
  | nil =>
    intro _ t₁ t₂ ht
    have h1 : t₁ = [] := by
      have := List.append_eq_nil.mp ht.symm
      exact this.1
    simp [h1, countDispatch, countSettle]
  | @cons s b ss' bs' hsb _ ih =>
    intro hlen t₁ t₂ ht
    have hbC : b.length ≤ C := hlen b (List.mem_cons_self _ _)
    have hseg : schedTrace (b :: bs') (s :: ss') =
        (b.map SchedEvent.dispatch ++ s.map SchedEvent.settle) ++
          schedTrace bs' ss' := by
      simp [schedTrace]
    rw [hseg] at ht
    rcases List.append_eq_append_iff.mp ht with ⟨a', ha1, ha2⟩ | ⟨c', hc1, hc2⟩
    · -- the prefix extends beyond the first segment
      have hrest := ih (fun x hx => hlen x (List.mem_cons_of_mem _ hx)) a' t₂ ha2
      rw [ha1, countDispatch_append, countSettle_append,
        countDispatch_append, countSettle_append,
        (count_dispatch_map b).1, (count_dispatch_map b).2,
        (count_settle_map s).1, (count_settle_map s).2]
      omega
    · -- the prefix stops inside the first segment
      have hcnt : countDispatch t₁ + countDispatch c' =
          b.length + 0 := by
        rw [← countDispatch_append, ← hc1, countDispatch_append,
          (count_dispatch_map b).1, (count_settle_map s).1]
      have : countDispatch t₁ ≤ b.length := by omega
      omega

/-- C9: for every total part count and every pattern of transfer completion
times (a settle order per batch that settles exactly that batch's parts), at
every instant — i.e. for every prefix of the scheduler's entry/exit trace —
the number of transfers dispatched exceeds the number settled by at most
`maxConcurrent = 5`. -/
theorem claim_C9_concurrency_ceiling (totalParts : Nat) (ss : List (List Nat))
    (hss : List.Forall₂ (fun s b => s.Perm b) ss (batches totalParts))
    (t₁ t₂ : List SchedEvent)
    (hsplit : schedTrace (batches totalParts) ss = t₁ ++ t₂) :
    countDispatch t₁ ≤ countSettle t₁ + maxConcurrent :=
  schedTrace_inflight_bound maxConcurrent ss (batches totalParts)
    (hss.imp (fun _ _ h => h.length_eq))
    (batchesGo_length_le totalParts totalParts 0) t₁ t₂ hsplit

/-- C9 witness: seven parts (batches `[1..5]` and `[6,7]`) with shuffled
settle orders; the whole trace as its own prefix respects the ceiling. -/
theorem claim_C9_concurrency_ceiling_witness :
    List.Forall₂ (fun s b => s.Perm b) [[3, 1, 2, 4, 5], [7, 6]] (batches 7) ∧
    countDispatch (schedTrace (batches 7) [[3, 1, 2, 4, 5], [7, 6]]) ≤
      countSettle (schedTrace (batches 7) [[3, 1, 2, 4, 5], [7, 6]]) + maxConcurrent := by
  have hfa : List.Forall₂ (fun s b => s.Perm b) [[3, 1, 2, 4, 5], [7, 6]] (batches 7) := by
    have hb : batches 7 = [[1, 2, 3, 4, 5], [6, 7]] := rfl
    rw [hb]
    exact .cons (by decide) (.cons (by decide) .nil)
  exact ⟨hfa, claim_C9_concurrency_ceiling 7 [[3, 1, 2, 4, 5], [7, 6]] hfa
    (schedTrace (batches 7) [[3, 1, 2, 4, 5], [7, 6]]) []
    (List.append_nil _).symm⟩

/-- C10: a falsy value (absent or `0`) for `chunkSize`, `maxRetries`, or
`retryDelay` is replaced by the documented default (5 MiB, 3, 1000 ms); a
truthy (non-zero) value is kept; consequently none of the three configured
values can be zero. -/
theorem claim_C10_defaults (o : UploaderOptions) :
    ((o.chunkSize = none ∨ o.chunkSize = some 0) →
      (mkUploaderNumConfig o).chunkSize = 5 * 1024 * 1024) ∧
    (∀ v : Int, v ≠ 0 → o.chunkSize = some v → (mkUploaderNumConfig o).chunkSize = v) ∧
    ((o.maxRetries = none ∨ o.maxRetries = some 0) →
      (mkUploaderNumConfig o).maxRetries = 3) ∧
    (∀ v : Int, v ≠ 0 → o.maxRetries = some v → (mkUploaderNumConfig o).maxRetries = v) ∧
    ((o.retryDelay = none ∨ o.retryDelay = some 0) →
      (mkUploaderNumConfig o).retryDelay = 1000) ∧
    (∀ v : Int, v ≠ 0 → o.retryDelay = some v → (mkUploaderNumConfig o).retryDelay = v) ∧
    (mkUploaderNumConfig o).chunkSize ≠ 0 ∧
    (mkUploaderNumConfig o).maxRetries ≠ 0 ∧
    (mkUploaderNumConfig o).retryDelay ≠ 0 := by
  obtain ⟨c, m, r⟩ := o
  refine ⟨?_, ?_, ?_, ?_, ?_, ?_, ?_, ?_, ?_⟩ <;>
    simp only [mkUploaderNumConfig, jsOrNum] <;>
    first
      | (rintro (rfl | rfl) <;> simp)
      | (rintro v hv rfl; simp [hv])
      | (rcases c with _ | c <;> rcases m with _ | m <;> rcases r with _ | r <;>
          simp <;> split <;> simp_all)

/-- `(p - 1) * cs + cs = p * cs` for `p ≥ 1`. -/
theorem pred_mul_add (cs : Nat) {p : Nat} (hp : 1 ≤ p) :
    (p - 1) * cs + cs = p * cs := by
  calc (p - 1) * cs + cs = (p - 1 + 1) * cs := (Nat.succ_mul _ _).symm
    _ = p * cs := by rw [Nat.sub_add_cancel hp]

/-- Basic bounds on the ceiling part count: `fileSize ≤ totalParts * chunkSize`
and `(totalParts - 1) * chunkSize < fileSize`, and the count is positive. -/
theorem totalPartsFor_bounds (fileSize chunkSize : Nat)
    (hf : 0 < fileSize) (hc : 0 < chunkSize) :
    fileSize ≤ totalPartsFor fileSize chunkSize * chunkSize ∧
    (totalPartsFor fileSize chunkSize - 1) * chunkSize < fileSize ∧
    1 ≤ totalPartsFor fileSize chunkSize := by
  have hdm := Nat.div_add_mod (fileSize + chunkSize - 1) chunkSize
  have hmodc : (fileSize + chunkSize - 1) % chunkSize < chunkSize :=
    Nat.mod_lt _ hc
  have hpos : 1 ≤ totalPartsFor fileSize chunkSize := by
    rw [totalPartsFor, Nat.le_div_iff_mul_le hc]
    omega
  have hpm := pred_mul_add chunkSize hpos
  have hcomm : totalPartsFor fileSize chunkSize * chunkSize =
      chunkSize * ((fileSize + chunkSize - 1) / chunkSize) := by
    rw [totalPartsFor, Nat.mul_comm]
  refine ⟨by omega, by omega, hpos⟩

/-- C2: for every positive `fileSize` and `chunkSize`, the planned parts
(part `p` covering `[(p-1)*chunkSize, min(p*chunkSize, fileSize))` for
`p = 1 .. totalParts`) exactly tile `[0, fileSize)`: part 1 starts at 0, the
last part ends at `fileSize`, consecutive parts are adjacent, every byte lies
in exactly one part, every part except the last has length exactly
`chunkSize`, and the last part is non-empty and no longer than `chunkSize`. -/
theorem claim_C2_plan_tiles (fileSize chunkSize : Nat)
    (hf : 0 < fileSize) (hc : 0 < chunkSize) :
    partStart chunkSize 1 = 0 ∧
    partEnd fileSize chunkSize (totalPartsFor fileSize chunkSize) = fileSize ∧
    (∀ p, 1 ≤ p → p < totalPartsFor fileSize chunkSize →
      partEnd fileSize chunkSize p = partStart chunkSize (p + 1) ∧
      partEnd fileSize chunkSize p - partStart chunkSize p = chunkSize) ∧
    (0 < partEnd fileSize chunkSize (totalPartsFor fileSize chunkSize) -
        partStart chunkSize (totalPartsFor fileSize chunkSize) ∧
      partEnd fileSize chunkSize (totalPartsFor fileSize chunkSize) -
        partStart chunkSize (totalPartsFor fileSize chunkSize) ≤ chunkSize) ∧
    (∀ b, b < fileSize → ∃! p,
      (1 ≤ p ∧ p ≤ totalPartsFor fileSize chunkSize) ∧
      partStart chunkSize p ≤ b ∧ b < partEnd fileSize chunkSize p) := by
  obtain ⟨hub, hlb, hT1⟩ := totalPartsFor_bounds fileSize chunkSize hf hc
  set T := totalPartsFor fileSize chunkSize with hT
  -- size of every non-final part
  have hmid : ∀ p, 1 ≤ p → p < T →
      partEnd fileSize chunkSize p = partStart chunkSize (p + 1) ∧
      partEnd fileSize chunkSize p - partStart chunkSize p = chunkSize := by
    intro p hp1 hpT
    have hpm := pred_mul_add chunkSize hp1
    have hple : p * chunkSize ≤ (T - 1) * chunkSize :=
      Nat.mul_le_mul_right _ (by omega)
    have hlt : p * chunkSize < fileSize := lt_of_le_of_lt hple hlb
    constructor
    · rw [partEnd, partStart, partStart, hpm]
      simp [Nat.min_eq_left (le_of_lt hlt)]
    · rw [partEnd, partStart, hpm, Nat.min_eq_left (le_of_lt hlt)]
      omega
  have hTm := pred_mul_add chunkSize hT1
  have hlast : partEnd fileSize chunkSize T = fileSize := by
    rw [partEnd, partStart, hTm]
    exact Nat.min_eq_right hub
  refine ⟨by simp [partStart], hlast, hmid, ?_, ?_⟩
  · rw [hlast, partStart]
    omega
  · intro b hb
    have hdmb := Nat.div_add_mod b chunkSize
    have hmodb : b % chunkSize < chunkSize := Nat.mod_lt _ hc
    have hbcomm : b / chunkSize * chunkSize = chunkSize * (b / chunkSize) :=
      Nat.mul_comm _ _
    refine ⟨b / chunkSize + 1,
      ⟨⟨Nat.succ_le_succ (Nat.zero_le _), ?_⟩, ?_, ?_⟩, ?_⟩
    · have hdT : b / chunkSize < T := by
        rw [Nat.div_lt_iff_lt_mul hc]
        exact lt_of_lt_of_le hb hub
      exact hdT
    · rw [partStart]
      simpa using Nat.div_mul_le_self b chunkSize
    · rw [partEnd, partStart]
      refine lt_min ?_ hb
      simp only [Nat.add_sub_cancel]
      rw [hbcomm]
      conv_lhs => rw [← hdmb]
      exact Nat.add_lt_add_left hmodb _
    · rintro q ⟨⟨hq1, hqT⟩, hqlo, hqhi⟩
      have hqm := pred_mul_add chunkSize hq1
      rw [partStart] at hqlo
      rw [partEnd, partStart] at hqhi
      have hqhi' : b < q * chunkSize := by
        have := min_le_left ((q - 1) * chunkSize + chunkSize) fileSize
        omega
      have h1 : q - 1 ≤ b / chunkSize := by
        rw [Nat.le_div_iff_mul_le hc]
        exact hqlo
      have h2 : b / chunkSize ≤ q - 1 :=
        Nat.le_pred_of_lt (by rw [Nat.div_lt_iff_lt_mul hc]; exact hqhi')
      have h4 : b / chunkSize = q - 1 := Nat.le_antisymm h2 h1
      rw [h4]
      exact (Nat.succ_pred_eq_of_pos hq1).symm

/-- C2 witness: the tiling law at the spec's end-to-end scenario sizes
(scaled): `fileSize = 12`, `chunkSize = 5` gives parts `[0,5) [5,10) [10,12)`. -/
theorem claim_C2_plan_tiles_witness :
    0 < 12 ∧ 0 < 5 ∧
    (partStart 5 1 = 0 ∧
      partEnd 12 5 (totalPartsFor 12 5) = 12 ∧
      (∀ p, 1 ≤ p → p < totalPartsFor 12 5 →
        partEnd 12 5 p = partStart 5 (p + 1) ∧
        partEnd 12 5 p - partStart 5 p = 5) ∧
      (0 < partEnd 12 5 (totalPartsFor 12 5) - partStart 5 (totalPartsFor 12 5) ∧
        partEnd 12 5 (totalPartsFor 12 5) - partStart 5 (totalPartsFor 12 5) ≤ 5) ∧
      (∀ b, b < 12 → ∃! p, (1 ≤ p ∧ p ≤ totalPartsFor 12 5) ∧
        partStart 5 p ≤ b ∧ b < partEnd 12 5 p)) :=
  ⟨by decide, by decide, claim_C2_plan_tiles 12 5 (by decide) (by decide)⟩

/-- C5: the `catch` block of `upload()`, when a session id exists and a
progress callback was given, first makes the cancellation call, then emits
the `error` progress event, and then re-raises the original error `e`
unchanged — for either outcome of the abort fetch, whose own failure is
swallowed inside `abortUpload` (its error slot is `none` in all cases).  The
same handler terminates the concrete finalization-failure run shown in the
last two conjuncts. -/
theorem claim_C5_error_path (abortFetchOk : Bool) (sid : String) (e : String) :
    uploadCatchRun abortFetchOk (some sid) true e =
      ([UEvent.fetchAbort, UEvent.progress "error"], e) ∧
    (abortUploadRun abortFetchOk).2 = none ∧
    (uploadRun ⟨5, 3, 1000⟩ 5 true
      ⟨⟨some "u", some [⟨1, some "url1"⟩], some "b", some "k"⟩,
        fun _ _ => some "tag", false, false⟩).1 =
      [UEvent.progress "initiating", UEvent.fetchInit, UEvent.progress "uploading",
        UEvent.dispatch 1, UEvent.progress "uploading", UEvent.progress "completing",
        UEvent.fetchComplete [⟨1, "tag"⟩], UEvent.fetchAbort, UEvent.progress "error"] ∧
    (uploadRun ⟨5, 3, 1000⟩ 5 true
      ⟨⟨some "u", some [⟨1, some "url1"⟩], some "b", some "k"⟩,
        fun _ _ => some "tag", false, false⟩).2 = .error "complete failed" :=
  ⟨rfl, rfl, by decide, rfl⟩

/-- C6, counterexample: a response with a valid session id and the right
token count whose single token has no `url` field is accepted — validation
succeeds and the session state is assigned — although the claim says a token
with missing fields must cause an authorization failure. -/
theorem claim_C6_counterexample :
    (getPresignedUrlsRun initialSession 1
      ⟨some "u", some [⟨1, none⟩], some "b", some "k"⟩).2 = none ∧
    (getPresignedUrlsRun initialSession 1
      ⟨some "u", some [⟨1, none⟩], some "b", some "k"⟩).1.uploadId = some "u" := by
  decide

/-- C6 (amended): `getPresignedUrls` fails exactly when the session id field
is falsy, the token list is missing or not an array, or the token count
differs from `totalParts`; per-token fields are never validated.  On failure
the session fields are untouched; on success they are assigned from the
response (with the token list sorted). -/
theorem claim_C6_validation (st : SessionState) (n : Nat) (data : InitData) :
    ((getPresignedUrlsRun st n data).2.isSome = true ↔
      (jsTruthyStr data.uploadId = false ∨ data.presignedUrls = none ∨
        ∃ urls, data.presignedUrls = some urls ∧ urls.length ≠ n)) ∧
    ((getPresignedUrlsRun st n data).2.isSome = true →
      (getPresignedUrlsRun st n data).1 = st) ∧
    ((getPresignedUrlsRun st n data).2 = none →
      (getPresignedUrlsRun st n data).1.uploadId = data.uploadId ∧
      ∃ urls, data.presignedUrls = some urls ∧
        (getPresignedUrlsRun st n data).1.presignedUrls = sortTokens urls) := by
  rcases data with ⟨uid, purls, bj, kj⟩
  cases h1 : jsTruthyStr uid with
  | false => simp [getPresignedUrlsRun, h1]
  | true =>
    cases purls with
    | none => simp [getPresignedUrlsRun, h1]
    | some urls =>
      by_cases h2 : urls.length = n
      · simp [getPresignedUrlsRun, h1, h2]
      · simp [getPresignedUrlsRun, h1, h2]

/-- C6 witness: the amended validation law evaluated at a response whose
session id is missing: validation fails and the state is unchanged. -/
theorem claim_C6_validation_witness :
    (getPresignedUrlsRun initialSession 1 ⟨none, none, none, none⟩).2.isSome = true ∧
    (getPresignedUrlsRun initialSession 1 ⟨none, none, none, none⟩).1 = initialSession := by
  have h := claim_C6_validation initialSession 1 ⟨none, none, none, none⟩
  have hs := h.1.mpr (Or.inl rfl)
  exact ⟨hs, h.2.1 hs⟩

/-- The ceiling part count of an empty file is zero for every chunk size. -/
theorem totalPartsFor_zero (cs : Nat) : totalPartsFor 0 cs = 0 := by
  cases cs with
  | zero => rfl
  | succ c =>
    show (0 + (c + 1) - 1) / (c + 1) = 0
    simp [Nat.div_eq_of_lt (Nat.lt_succ_of_le (Nat.le_refl c))]

/-- C7, counterexample: with `fileSize = 0` (and a well-formed empty token
list from the collaborator) `upload()` performs the authorization request and
completes successfully — it raises no `InvalidConfigurationError` before the
authorization request, contrary to the claim. -/
theorem claim_C7_counterexample :
    (uploadRun ⟨5 * 1024 * 1024, 3, 1000⟩ 0 true
      ⟨⟨some "u", some [], some "b", some "k"⟩, fun _ _ => none, true, true⟩).2 =
      .ok "done" ∧
    UEvent.fetchInit ∈ (uploadRun ⟨5 * 1024 * 1024, 3, 1000⟩ 0 true
      ⟨⟨some "u", some [], some "b", some "k"⟩, fun _ _ => none, true, true⟩).1 :=
  ⟨rfl, by decide⟩

/-- C7 (amended): the code performs no `chunkSize`/`fileSize` validation and
defines no `InvalidConfigurationError`: a zero option value is silently
replaced by a default in the constructor, and with `fileSize = 0` the
authorization request is still made (with `totalParts = 0`); given a
well-formed empty token list the upload then finalizes successfully, with no
part ever dispatched. -/
theorem claim_C7_no_config_validation (cfg : Config) (env : UploadEnv) (hasCB : Bool)
    (hid : jsTruthyStr env.initData.uploadId = true)
    (hurls : env.initData.presignedUrls = some [])
    (hok : env.completeOk = true) :
    (uploadRun cfg 0 hasCB env).2 = .ok "done" ∧
    UEvent.fetchInit ∈ (uploadRun cfg 0 hasCB env).1 ∧
    ∀ p, UEvent.dispatch p ∉ (uploadRun cfg 0 hasCB env).1 := by
  have hval : getPresignedUrlsRun initialSession (totalPartsFor 0 cfg.chunkSize)
      env.initData =
      ({ uploadId := env.initData.uploadId, presignedUrls := sortTokens [],
         bucket := env.initData.bucket, key := env.initData.key }, none) := by
    rw [totalPartsFor_zero]
    simp [getPresignedUrlsRun, hid, hurls]
  refine ⟨?_, ?_, ?_⟩ <;>
    simp only [uploadRun, hval, hok, sortTokens, List.insertionSort,
      List.length_nil, batches, batchesGo, runBatches, List.replicate,
      completedParts, List.filterMap_nil, if_true]
  all_goals cases hasCB <;> simp

/-- C7 witness: the no-validation law at a concrete configuration and a
well-formed empty-token environment. -/
theorem claim_C7_no_config_validation_witness :
    (uploadRun ⟨5 * 1024 * 1024, 3, 1000⟩ 0 false
      ⟨⟨some "s", some [], none, none⟩, fun _ _ => none, true, false⟩).2 =
      .ok "done" ∧
    UEvent.fetchInit ∈ (uploadRun ⟨5 * 1024 * 1024, 3, 1000⟩ 0 false
      ⟨⟨some "s", some [], none, none⟩, fun _ _ => none, true, false⟩).1 ∧
    ∀ p, UEvent.dispatch p ∉ (uploadRun ⟨5 * 1024 * 1024, 3, 1000⟩ 0 false
      ⟨⟨some "s", some [], none, none⟩, fun _ _ => none, true, false⟩).1 :=
  claim_C7_no_config_validation ⟨5 * 1024 * 1024, 3, 1000⟩
    ⟨⟨some "s", some [], none, none⟩, fun _ _ => none, true, false⟩ false rfl rfl rfl

/-- C8, counterexample: a transfer dispatched before `abort()` (entry check
passed with the flag still false) whose flag is set mid-flight
(`abortedAtCompletion = true`) still has its result RECORDED into the parts
array and REPORTED through a progress event on completion — not discarded as
the claim states. -/
theorem claim_C8_counterexample :
    (uploadSinglePartRun (fun _ => some "e") 1000 3 true false true 1 [none]).2.1 =
      [some ⟨1, "e"⟩] ∧
    UEvent.progress "uploading" ∈
      (uploadSinglePartRun (fun _ => some "e") 1000 3 true false true 1 [none]).1 := by
  decide

/-- A run in which the abort flag is never observed true at a batch boundary
or a part entry is identical to the never-aborted run on the batch loop,
whatever the flag's value when each transfer resolves. -/
theorem runBatchesFlags_no_observed_abort (env : UploadEnv) (cfg : Config)
    (hasCB : Bool) (cplFlag : Nat → Bool) :
    ∀ (bs : List (List Nat)) (k : Nat) (arr : List (Option PartRec)),
    runBatchesFlags env cfg hasCB (fun _ => false) (fun _ => false) cplFlag k bs arr =
      runBatches env cfg hasCB (fun _ => false) k bs arr := by
  intro bs
  induction bs with
  | nil => intro k arr; rfl
  | cons b rest ih =>
    intro k arr
    -- `runBatchFlags` with all-false entry flags is definitionally `runBatch`
    show (match (runBatch env cfg hasCB b arr).2.2 with
      | some e =>
        ((runBatch env cfg hasCB b arr).1, (runBatch env cfg hasCB b arr).2.1, some e)
      | none =>
        let res2 := runBatchesFlags env cfg hasCB (fun _ => false) (fun _ => false)
          cplFlag (k + 1) rest (runBatch env cfg hasCB b arr).2.1
        ((runBatch env cfg hasCB b arr).1 ++ res2.1, res2.2.1, res2.2.2)) = _
    rw [runBatches]
    simp only [if_neg (by simp : ¬(false = true)), ih]

/-- C8 (amended): `abort()` never throws (its cancellation call swallows its
own transport failures); a part transfer that observes the aborted flag true
at entry throws `Upload aborted` without dispatching, and the batch loop
dispatches nothing once it observes the flag at a batch boundary; but the
flag is never re-read after a transfer resolves or after the batch loop, so a
transfer already in flight when the flag is set has its result recorded and
reported identically to an unaborted run — and when the flag is set only
after the final batch's checks have passed, the whole `upload()` run
(finalization included) is identical to one with no abort at all: shown in
general (conjunct 5) and on a concrete one-part run that finalizes with the
in-flight result and resolves successfully (conjuncts 6-7). -/
theorem claim_C8_abort_semantics :
    (∀ (st : SessionState) (ok : Bool), (abortRun st ok).2.2 = none) ∧
    (∀ (outcomes : Nat → Option String) (rd mr : Nat) (hasCB b : Bool) (p : Nat)
      (arr : List (Option PartRec)),
      uploadSinglePartRun outcomes rd mr hasCB true b p arr =
        ([], arr, some "Upload aborted")) ∧
    (∀ (env : UploadEnv) (cfg : Config) (hasCB : Bool) (k : Nat)
      (b : List Nat) (bs : List (List Nat)) (arr : List (Option PartRec)),
      runBatches env cfg hasCB (fun _ => true) k (b :: bs) arr =
        ([], arr, some "Upload aborted")) ∧
    (∀ (outcomes : Nat → Option String) (rd mr : Nat) (hasCB b₁ b₂ : Bool) (p : Nat)
      (arr : List (Option PartRec)),
      uploadSinglePartRun outcomes rd mr hasCB false b₁ p arr =
        uploadSinglePartRun outcomes rd mr hasCB false b₂ p arr) ∧
    (∀ (cfg : Config) (fs : Nat) (hasCB : Bool) (env : UploadEnv)
      (cplFlag : Nat → Bool),
      uploadRunFlags cfg fs hasCB env (fun _ => false) (fun _ => false) cplFlag =
        uploadRun cfg fs hasCB env) ∧
    (uploadRunFlags ⟨5, 3, 1000⟩ 5 true
      ⟨⟨some "u", some [⟨1, some "url1"⟩], some "b", some "k"⟩,
        fun _ _ => some "tag", true, true⟩
      (fun _ => false) (fun _ => false) (fun _ => true)).2 = .ok "done" ∧
    UEvent.fetchComplete [⟨1, "tag"⟩] ∈ (uploadRunFlags ⟨5, 3, 1000⟩ 5 true
      ⟨⟨some "u", some [⟨1, some "url1"⟩], some "b", some "k"⟩,
        fun _ _ => some "tag", true, true⟩
      (fun _ => false) (fun _ => false) (fun _ => true)).1 := by
  refine ⟨fun _ _ => rfl, fun _ _ _ _ _ _ _ => rfl, fun _ _ _ _ _ _ _ => rfl,
    fun _ _ _ _ _ _ _ _ => rfl, ?_, rfl, by decide⟩
  intro cfg fs hasCB env cplFlag
  simp only [uploadRunFlags, uploadRun, runBatchesFlags_no_observed_abort]

/-- C10 witness: the defaulting law evaluated at options with
`chunkSize = 0`, `maxRetries` absent, and `retryDelay = 7`. -/
theorem claim_C10_defaults_witness :
    (mkUploaderNumConfig ⟨some 0, none, some 7⟩).chunkSize = 5 * 1024 * 1024 ∧
    (mkUploaderNumConfig ⟨some 0, none, some 7⟩).maxRetries = 3 ∧
    (mkUploaderNumConfig ⟨some 0, none, some 7⟩).retryDelay = 7 := by
  have h := claim_C10_defaults ⟨some 0, none, some 7⟩
  exact ⟨h.1 (Or.inr rfl), h.2.2.1 (Or.inl rfl),
    h.2.2.2.2.2.1 7 (by decide) rfl⟩

end S3Uploader
